import Mathlib

/-!
Verification of the hybrid retrieval engine of the memory-search repository.

The development shallowly embeds the TypeScript sources: pure functions become
Lean functions over `ℚ`/`ℝ`/`String`/`List`, the SQLite tables become lists of
row structures, and external collaborators (the embedding provider, the FTS5
MATCH query, the markdown chunker, content hashing, JSON.stringify) are
parameters of the model.  JavaScript numbers are modelled as rationals; the one
operation producing irrational (or non-finite) values, cosine similarity, is
modelled over `ℝ` with `Option` marking the non-finite case, which is what
`Number.isFinite` observes.

Functions of `src/hybrid.ts` and `src/internal.ts` are not part of the
repository snapshot (only their tests and callers are); their definitions below
are modelled from the specification and carry a doc comment saying so.
-/

namespace MemorySearch

/-- Snippet budget used by both search paths (manager constant). -/
def SNIPPET_MAX_CHARS : ℕ := 700

/-- Token budget of one embedding batch (manager constant). -/
def EMBEDDING_BATCH_MAX_TOKENS : ℕ := 8000

/-- Characters per token used when sizing embedding batches (manager constant). -/
def EMBEDDING_APPROX_CHARS_PER_TOKEN : ℕ := 1

/-- Modelled from the spec: the chunker (`chunkMarkdown` of the missing
`internal.ts`) approximates its token budget as `tokenBudget × constant`
characters; the repository's own test suite sizes the maximal chunk as
`chunkTokens * 4` characters, pinning the constant to 4. -/
def chunkApproxCharsPerToken : ℕ := 4

/-- Modelled from the spec: the BM25 rank-to-score transform of the missing
`hybrid.ts`.  The spec fixes the reciprocal form `1 / (1 + max 0 rank)` with
non-positive ranks mapping to 1 and rank 1 mapping to 0.5. -/
def bm25RankToScore (rank : ℚ) : ℚ := 1 / (1 + max 0 rank)

/-- Membership in the regular-expression word class used by the FTS tokenizer. -/
def isWordChar (c : Char) : Bool := c.isAlphanum || c = '_'

/-- Splits a character stream into maximal runs of word characters;
the accumulator holds the current run reversed. -/
def wordTokensAux : List Char → List Char → List (List Char)
  | [], acc => if acc.isEmpty then [] else [acc.reverse]
  | c :: cs, acc =>
    if isWordChar c then wordTokensAux cs (c :: acc)
    else if acc.isEmpty then wordTokensAux cs []
    else acc.reverse :: wordTokensAux cs []

/-- Modelled from the spec: `buildFtsQuery` of the missing `hybrid.ts`.  The
query is split on non-word-character boundaries, each token is quoted, and the
tokens are AND-joined; a query with no tokens yields no FTS query at all. -/
def buildFtsQuery (query : String) : Option String :=
  let toks := (wordTokensAux query.data []).map (fun t => String.mk t)
  if toks.isEmpty then none
  else some (String.intercalate " AND " (toks.map (fun t => "\"" ++ t ++ "\"")))

/-- Modelled from the spec: `truncateUtf16Safe` of the missing `internal.ts`
truncates a snippet to at most the given number of UTF-16 units without
splitting a surrogate pair.  Lean strings are sequences of Unicode characters,
so the surrogate mechanics are not representable; the truncation is modelled as
a character-level take, which agrees on the basic multilingual plane. -/
def truncateUtf16Safe (s : String) (maxChars : ℕ) : String := ⟨s.data.take maxChars⟩

/-- JSON whitespace. -/
def isJsonWs (c : Char) : Bool := c = ' ' || c = '\t' || c = '\n' || c = '\r'

/-- Drops leading JSON whitespace. -/
def skipWs (cs : List Char) : List Char := cs.dropWhile isJsonWs

/-- Whitespace for the purposes of JavaScript string trimming. -/
def isJsWs (c : Char) : Bool := c.isWhitespace

/-- JavaScript `String.prototype.trim`, modelled over the character sequence
(JavaScript additionally trims some exotic Unicode space characters, which is
immaterial here). -/
def jsTrim (s : String) : String :=
  ⟨((s.data.dropWhile isJsWs).reverse.dropWhile isJsWs).reverse⟩

/-- Numeric value of a digit run. -/
def digitsToNat (ds : List Char) : ℕ := ds.foldl (fun a c => a * 10 + (c.toNat - 48)) 0

/-- Splits a character stream into its leading digit run and the remainder. -/
def spanDigits (cs : List Char) : List Char × List Char :=
  (cs.takeWhile Char.isDigit, cs.dropWhile Char.isDigit)

/-- Parses the optional fractional part of a JSON number. -/
def parseFrac : List Char → Option (ℚ × List Char)
  | '.' :: rest =>
    let p := spanDigits rest
    if p.1.isEmpty then none
    else some ((digitsToNat p.1 : ℚ) / (10 : ℚ) ^ p.1.length, p.2)
  | cs => some (0, cs)

/-- Parses the optional exponent part of a JSON number. -/
def parseExp : List Char → Option (ℤ × List Char)
  | c :: rest =>
    if c = 'e' ∨ c = 'E' then
      let q := match rest with
        | '+' :: r => ((1 : ℤ), r)
        | '-' :: r => ((-1 : ℤ), r)
        | r => ((1 : ℤ), r)
      let p := spanDigits q.2
      if p.1.isEmpty then none else some (q.1 * (digitsToNat p.1 : ℤ), p.2)
    else some (0, c :: rest)
  | [] => some (0, [])

/-- Parses one JSON number (sign, integer part, fraction, exponent). -/
def parseNumber (cs : List Char) : Option (ℚ × List Char) :=
  let s := match cs with
    | '-' :: rest => (true, rest)
    | _ => (false, cs)
  let ip := spanDigits s.2
  if ip.1.isEmpty then none
  else
    match parseFrac ip.2 with
    | none => none
    | some (f, cs3) =>
      match parseExp cs3 with
      | none => none
      | some (e, cs4) =>
        let v : ℚ := ((digitsToNat ip.1 : ℚ) + f) * (10 : ℚ) ^ e
        some (if s.1 then -v else v, cs4)

/-- Parses the comma-separated elements of a JSON number array up to the
closing bracket; the fuel bounds the recursion by the input length. -/
def parseElems : ℕ → List Char → Option (List ℚ × List Char)
  | 0, _ => none
  | fuel + 1, cs =>
    match parseNumber (skipWs cs) with
    | none => none
    | some (q, cs1) =>
      match skipWs cs1 with
      | ',' :: cs2 =>
        match parseElems fuel cs2 with
        | none => none
        | some (qs, cs3) => some (q :: qs, cs3)
      | ']' :: cs2 => some ([q], cs2)
      | _ => none

/-- Parses a complete JSON array of numbers, requiring the whole input to be
consumed; anything else (other JSON values, malformed text) is rejected. -/
def parseNumArray (s : String) : Option (List ℚ) :=
  match skipWs s.data with
  | '[' :: cs =>
    (match skipWs cs with
     | ']' :: cs2 => if (skipWs cs2).isEmpty then some [] else none
     | cs1 =>
       match parseElems (cs1.length + 1) cs1 with
       | none => none
       | some (qs, rest) => if (skipWs rest).isEmpty then some qs else none)
  | _ => none

/-- Modelled from the spec: `parseEmbedding` of the missing `internal.ts`.  A
stored vector that does not parse as a JSON number array (corrupt JSON, or a
non-array value) is treated as the empty vector and never raises. -/
def parseEmbedding (raw : String) : List ℚ := (parseNumArray raw).getD []

/-- Dot product of two rational vectors over their common prefix. -/
def dotQ : List ℚ → List ℚ → ℚ
  | a :: as, b :: bs => a * b + dotQ as bs
  | _, _ => 0

/-- Squared Euclidean norm of a rational vector. -/
def normSq (v : List ℚ) : ℚ := dotQ v v

/-- Modelled from the spec: `cosineSimilarity` of the missing `internal.ts`,
`dot(a,b) / (‖a‖·‖b‖)` as a JavaScript number.  The tests pin the empty-vector
case to 0.  When either (nonempty) vector has zero magnitude the JavaScript
division yields NaN or ±Infinity; the non-finite outcome, which is exactly what
`Number.isFinite` filters in `searchVector`, is modelled as `none`. -/
noncomputable def cosineSimilarity (a b : List ℚ) : Option ℝ :=
  if a.isEmpty ∨ b.isEmpty then some 0
  else if Real.sqrt ((normSq a : ℚ) : ℝ) * Real.sqrt ((normSq b : ℚ) : ℝ) = 0 then none
  else some (((dotQ a b : ℚ) : ℝ) /
    (Real.sqrt ((normSq a : ℚ) : ℝ) * Real.sqrt ((normSq b : ℚ) : ℝ)))

/-- A vector-side candidate handed to the hybrid merger (manager, search result
mapped to the merge input shape). -/
structure VectorCandidate where
  id : String
  path : String
  startLine : ℕ
  endLine : ℕ
  source : String
  snippet : String
  vectorScore : ℝ

/-- A keyword-side candidate handed to the hybrid merger. -/
structure KeywordCandidate where
  id : String
  path : String
  startLine : ℕ
  endLine : ℕ
  source : String
  snippet : String
  textScore : ℝ

/-- A merged candidate with its combined score. -/
structure MergedResult where
  id : String
  path : String
  startLine : ℕ
  endLine : ℕ
  source : String
  snippet : String
  score : ℝ

/-- Stable descending sort by a real-valued key, the behaviour of the
JavaScript stable sort with comparator on the score. -/
noncomputable def sortByDesc {α : Type} (f : α → ℝ) (l : List α) : List α :=
  @List.insertionSort α (fun a b => f b ≤ f a) (fun a b => Real.decidableLE (f b) (f a)) l

/-- The merged entry one candidate identity contributes: both weighted scores
and the keyword snippet when present on both sides, the single weighted score
otherwise. -/
def mergeEntry (vw tw : ℝ) (vector : List VectorCandidate) (keyword : List KeywordCandidate)
    (i : String) : Option MergedResult :=
  match vector.find? (fun v => v.id == i), keyword.find? (fun k => k.id == i) with
  | some v, some k =>
    some ⟨i, v.path, v.startLine, v.endLine, v.source, k.snippet,
      vw * v.vectorScore + tw * k.textScore⟩
  | some v, none =>
    some ⟨i, v.path, v.startLine, v.endLine, v.source, v.snippet, vw * v.vectorScore⟩
  | none, some k =>
    some ⟨i, k.path, k.startLine, k.endLine, k.source, k.snippet, tw * k.textScore⟩
  | none, none => none

/-- Modelled from the spec: `mergeHybridResults` of the missing `hybrid.ts`.
Candidates are unioned by id; an id on both sides combines both weighted
scores and takes the keyword snippet, an id on one side contributes its own
weighted score alone (the missing side is zero, no renormalization); the union
is ordered by combined score descending with no threshold or limit applied. -/
noncomputable def mergeHybridResults (vw tw : ℝ) (vector : List VectorCandidate)
    (keyword : List KeywordCandidate) : List MergedResult :=
  let ids := (vector.map (fun v => v.id) ++ keyword.map (fun k => k.id)).dedup
  sortByDesc (fun r => r.score) (ids.filterMap (mergeEntry vw tw vector keyword))

/-- A row of the chunks table. -/
structure ChunkRow where
  id : String
  path : String
  source : String
  startLine : ℕ
  endLine : ℕ
  hash : String
  model : String
  text : String
  embedding : String
  updatedAt : ℕ
deriving DecidableEq

/-- A hit returned by searchVector. -/
structure VectorHit where
  id : String
  path : String
  startLine : ℕ
  endLine : ℕ
  score : ℝ
  snippet : String
  source : String

/-- listChunks (search.ts): the chunk rows for the active model and source. -/
def listChunksM (chunks : List ChunkRow) (providerModel src : String) : List ChunkRow :=
  chunks.filter (fun c => c.model == providerModel && c.source == src)

/-- searchVector (search.ts): in-memory vector search by cosine similarity.
The map followed by the `Number.isFinite` filter of the source is expressed as
a `filterMap` over the `Option`-valued similarity. -/
noncomputable def searchVector (chunks : List ChunkRow) (providerModel : String)
    (queryVec : List ℚ) (limit : ℕ) (snippetMaxChars : ℕ) (src : String) : List VectorHit :=
  if queryVec.isEmpty || limit == 0 then []
  else
    ((sortByDesc (fun p => p.2) ((listChunksM chunks providerModel src).filterMap
      (fun c => (cosineSimilarity queryVec (parseEmbedding c.embedding)).map
        (fun s => (c, s))))).take limit).map
      (fun p => ⟨p.1.id, p.1.path, p.1.startLine, p.1.endLine, p.2,
        truncateUtf16Safe p.1.text snippetMaxChars, p.1.source⟩)

/-- A row produced by the FTS5 MATCH query of searchKeyword, raw BM25 rank
included; the SQL engine is an external collaborator. -/
structure FtsMatchRow where
  id : String
  path : String
  source : String
  startLine : ℕ
  endLine : ℕ
  text : String
  rank : ℚ

/-- A hit returned by searchKeyword. -/
structure KeywordHit where
  id : String
  path : String
  startLine : ℕ
  endLine : ℕ
  score : ℝ
  textScore : ℝ
  snippet : String
  source : String

/-- searchKeyword (search.ts).  The FTS5 MATCH query (which also filters by
model and source, orders by raw rank ascending and applies the limit) is the
collaborator `ftsMatch`, applied to the built FTS query and the limit. -/
noncomputable def searchKeyword (ftsMatch : String → ℕ → List FtsMatchRow) (query : String)
    (limit : ℕ) (snippetMaxChars : ℕ) : List KeywordHit :=
  if limit == 0 then []
  else
    match buildFtsQuery query with
    | none => []
    | some fq =>
      (ftsMatch fq limit).map (fun row =>
        let ts : ℝ := ((bm25RankToScore row.rank : ℚ) : ℝ)
        ⟨row.id, row.path, row.startLine, row.endLine, ts, ts,
          truncateUtf16Safe row.text snippetMaxChars, row.source⟩)

/-- The resolved configuration fields the core model uses. -/
structure ConfigM where
  chunkTokens : ℕ
  chunkOverlap : ℕ
  maxResults : ℕ
  minScore : ℝ
  vectorWeight : ℝ
  textWeight : ℝ

/-- The embedding provider collaborator; calls may fail with a provider
error. -/
structure ProviderM where
  id : String
  model : String
  embedQuery : String → Except String (List ℚ)
  embedBatch : List String → Except String (List (List ℚ))

/-- One chunk as produced by the chunker (MemoryChunk of internal.ts). -/
structure MemoryChunk where
  startLine : ℕ
  endLine : ℕ
  text : String
  hash : String
deriving DecidableEq

/-- The sync metadata record. -/
structure MemoryIndexMeta where
  model : String
  provider : String
  providerKey : String
  chunkTokens : ℕ
  chunkOverlap : ℕ
deriving DecidableEq

/-- Contents of the meta table cell under the fixed meta key.  The JSON
round trip of writeMeta/readMeta is modelled semantically: the cell is absent,
holds text that `JSON.parse` rejects, or holds the serialization of a metadata
record. -/
inductive MetaCell
  | absent
  | corrupt
  | stored (m : MemoryIndexMeta)
deriving DecidableEq

/-- A row of the files table. -/
structure FileRow where
  path : String
  source : String
  hash : String
  mtime : ℕ
  size : ℕ
deriving DecidableEq

/-- A row of the embedding cache table. -/
structure CacheRow where
  provider : String
  model : String
  providerKey : String
  hash : String
  embedding : String
  dims : ℕ
  updatedAt : ℕ
deriving DecidableEq

/-- A row of the FTS shadow table. -/
structure FtsTableRow where
  text : String
  id : String
  path : String
  source : String
  model : String
  startLine : ℕ
  endLine : ℕ
deriving DecidableEq

/-- The SQLite database state of one MemoryIndex. -/
structure Db where
  files : List FileRow
  chunks : List ChunkRow
  fts : List FtsTableRow
  metaCell : MetaCell
  cache : List CacheRow
deriving DecidableEq

/-- The collaborators and configuration fixed for one MemoryIndex instance:
the provider, the FTS extension state, the FTS MATCH query, the markdown
chunker, content hashing and JSON serialization of vectors. -/
structure EnvM where
  config : ConfigM
  provider : ProviderM
  providerKey : String
  ftsEnabled : Bool
  ftsAvailable : Bool
  ftsMatch : String → ℕ → List FtsMatchRow
  chunkMarkdown : String → ℕ → ℕ → List MemoryChunk
  hashText : String → String
  stringifyVec : List ℚ → String

/-- readMeta (manager): a missing or unparseable record is no metadata. -/
def readMeta (db : Db) : Option MemoryIndexMeta :=
  match db.metaCell with
  | MetaCell.stored m => some m
  | _ => none

/-- writeMeta (manager): upsert of the serialized record. -/
def writeMeta (db : Db) (m : MemoryIndexMeta) : Db :=
  { db with metaCell := MetaCell.stored m }

/-- resetIndex (manager): clears files and chunks, and the FTS shadow table
when the FTS extension is active. -/
def resetIndex (env : EnvM) (db : Db) : Db :=
  { db with
    files := []
    chunks := []
    fts := if env.ftsEnabled && env.ftsAvailable then [] else db.fts }

/-- estimateEmbeddingTokens (manager): ceiling of length over the
chars-per-token constant, 0 for the empty text. -/
def estimateEmbeddingTokens (text : String) : ℕ :=
  if text = "" then 0
  else (text.length + EMBEDDING_APPROX_CHARS_PER_TOKEN - 1) / EMBEDDING_APPROX_CHARS_PER_TOKEN

/-- buildEmbeddingBatches (manager): accumulate chunks into batches under the
batch token budget, an oversized chunk becoming its own batch. -/
def buildBatchesGo : List MemoryChunk → List MemoryChunk → ℕ → List (List MemoryChunk)
  | [], current, _ => if current.isEmpty then [] else [current]
  | c :: rest, current, currentTokens =>
    let est := estimateEmbeddingTokens c.text
    if ¬ current.isEmpty ∧ currentTokens + est > EMBEDDING_BATCH_MAX_TOKENS then
      if est > EMBEDDING_BATCH_MAX_TOKENS then current :: [c] :: buildBatchesGo rest [] 0
      else current :: buildBatchesGo rest [c] est
    else
      if current.isEmpty ∧ est > EMBEDDING_BATCH_MAX_TOKENS then
        [c] :: buildBatchesGo rest [] 0
      else buildBatchesGo rest (current ++ [c]) (currentTokens + est)

/-- buildEmbeddingBatches (manager), entry point. -/
def buildEmbeddingBatches (chunks : List MemoryChunk) : List (List MemoryChunk) :=
  buildBatchesGo chunks [] 0

/-- loadEmbeddingCache (manager) seen as the lookup map it builds: the cache
row matching the full key, its stored vector parsed. -/
def cacheLookup (db : Db) (pid pmodel pkey h : String) : Option (List ℚ) :=
  (db.cache.find? (fun r =>
    r.provider == pid && r.model == pmodel && r.providerKey == pkey && r.hash == h)).map
    (fun r => parseEmbedding r.embedding)

/-- upsertEmbeddingCache (manager), one row; `Date.now()` is modelled as 0. -/
def upsertCacheRow (env : EnvM) (cache : List CacheRow) (h : String) (v : List ℚ) :
    List CacheRow :=
  let row : CacheRow := ⟨env.provider.id, env.provider.model, env.providerKey, h,
    env.stringifyVec v, v.length, 0⟩
  if cache.any (fun r => r.provider == row.provider && r.model == row.model &&
      r.providerKey == row.providerKey && r.hash == row.hash) then
    cache.map (fun r => if r.provider == row.provider && r.model == row.model &&
      r.providerKey == row.providerKey && r.hash == row.hash then
        { r with
          embedding := row.embedding
          dims := row.dims
          updatedAt := row.updatedAt }
      else r)
  else cache ++ [row]

/-- upsertEmbeddingCache (manager) over an entry list. -/
def upsertEmbeddingCache (env : EnvM) (db : Db) (entries : List (String × List ℚ)) : Db :=
  { db with cache := entries.foldl (fun acc e => upsertCacheRow env acc e.1 e.2) db.cache }

/-- Sequential provider calls over the batches; per batch the results are
padded to the batch length with empty vectors (the `?? []` of the source) and
concatenated in order. -/
def embedBatchesSeq (embedBatch : List String → Except String (List (List ℚ))) :
    List (List MemoryChunk) → Except String (List (List ℚ))
  | [] => Except.ok []
  | b :: rest =>
    match embedBatch (b.map (fun c => c.text)) with
    | Except.error e => Except.error e
    | Except.ok es =>
      match embedBatchesSeq embedBatch rest with
      | Except.error e => Except.error e
      | Except.ok tail => Except.ok ((List.range b.length).map (fun i => es.getD i []) ++ tail)

/-- The cache hit test of embedChunksInBatches: a chunk with a nonempty hash
whose cached vector parses to a nonempty list. -/
def cacheHit (env : EnvM) (db : Db) (c : MemoryChunk) : Option (List ℚ) :=
  if c.hash = "" then none
  else
    match cacheLookup db env.provider.id env.provider.model env.providerKey c.hash with
    | some v => if 0 < v.length then some v else none
    | none => none

/-- Reassembles the final embeddings list: cache hits in place, misses taken
from the provider results in order. -/
def reassemble (hit : MemoryChunk → Option (List ℚ)) :
    List MemoryChunk → List (List ℚ) → List (List ℚ)
  | [], _ => []
  | c :: cs, ms =>
    match hit c with
    | some v => v :: reassemble hit cs ms
    | none => ms.headD [] :: reassemble hit cs ms.tail

/-- embedChunksInBatches (manager): serve cache hits, batch the misses through
the provider, upsert the fresh vectors into the cache. -/
def embedChunksInBatches (env : EnvM) (db : Db) (chunks : List MemoryChunk) :
    Except String (Db × List (List ℚ)) :=
  if chunks.isEmpty then Except.ok (db, [])
  else
    let missing := chunks.filter (fun c => (cacheHit env db c).isNone)
    if missing.isEmpty then Except.ok (db, chunks.map (fun c => (cacheHit env db c).getD []))
    else
      match embedBatchesSeq env.provider.embedBatch (buildEmbeddingBatches missing) with
      | Except.error e => Except.error e
      | Except.ok ms =>
        Except.ok (upsertEmbeddingCache env db ((missing.map (fun c => c.hash)).zip ms),
          reassemble (cacheHit env db) chunks ms)

/-- The identity key hashed into a chunk id by indexFile. -/
def chunkIdKey (path : String) (c : MemoryChunk) (model : String) : String :=
  "memory:" ++ path ++ ":" ++ toString c.startLine ++ ":" ++ toString c.endLine ++ ":" ++
    c.hash ++ ":" ++ model

/-- The chunk upsert of indexFile (ON CONFLICT(id) DO UPDATE SET hash, model,
text, embedding, updated_at). -/
def upsertChunkRow (rows : List ChunkRow) (r : ChunkRow) : List ChunkRow :=
  if rows.any (fun x => x.id == r.id) then
    rows.map (fun x => if x.id == r.id then
      { x with
        hash := r.hash
        model := r.model
        text := r.text
        embedding := r.embedding
        updatedAt := r.updatedAt }
      else x)
  else rows ++ [r]

/-- The file upsert of indexFile (ON CONFLICT(path) DO UPDATE SET source,
hash, mtime, size). -/
def upsertFileRow (rows : List FileRow) (f : FileRow) : List FileRow :=
  if rows.any (fun x => x.path == f.path) then
    rows.map (fun x => if x.path == f.path then
      { x with
        source := f.source
        hash := f.hash
        mtime := f.mtime
        size := f.size }
      else x)
  else rows ++ [f]

/-- One file entry as delivered by the file discovery collaborator, content
included. -/
structure MemoryFileEntry where
  path : String
  hash : String
  mtimeMs : ℕ
  size : ℕ
  content : String
deriving DecidableEq

/-- The per-chunk insert loop of indexFile; `Date.now()` is modelled as 0. -/
def insertChunks (env : EnvM) (entry : MemoryFileEntry) :
    Db → List MemoryChunk → List (List ℚ) → Db
  | db, [], _ => db
  | db, c :: cs, embs =>
    let v := embs.headD []
    let cid := env.hashText (chunkIdKey entry.path c env.provider.model)
    let row : ChunkRow := ⟨cid, entry.path, "memory", c.startLine, c.endLine, c.hash,
      env.provider.model, c.text, env.stringifyVec v, 0⟩
    let db1 : Db := { db with
      chunks := upsertChunkRow db.chunks row
      fts := if env.ftsEnabled && env.ftsAvailable then
          db.fts ++
            [⟨c.text, cid, entry.path, "memory", env.provider.model, c.startLine, c.endLine⟩]
        else db.fts }
    insertChunks env entry db1 cs embs.tail

/-- indexFile (manager): chunk the content, drop whitespace-only chunks,
embed, replace the file's chunk and FTS rows, and upsert the file record. -/
def indexFile (env : EnvM) (db : Db) (entry : MemoryFileEntry) : Except String Db :=
  let chunks := (env.chunkMarkdown entry.content env.config.chunkTokens
    env.config.chunkOverlap).filter (fun c => 0 < (jsTrim c.text).length)
  match embedChunksInBatches env db chunks with
  | Except.error e => Except.error e
  | Except.ok (db1, embeddings) =>
    let cleared : Db := { db1 with
      fts := if env.ftsEnabled && env.ftsAvailable then
          db1.fts.filter (fun r => !(r.path == entry.path && r.source == "memory" &&
            r.model == env.provider.model))
        else db1.fts
      chunks := db1.chunks.filter (fun c => !(c.path == entry.path && c.source == "memory")) }
    let inserted := insertChunks env entry cleared chunks embeddings
    Except.ok { inserted with
      files := upsertFileRow inserted.files
        ⟨entry.path, "memory", entry.hash, entry.mtimeMs, entry.size⟩ }

/-- The per-file loop of syncMemoryFiles; an indexing error aborts the loop
with the database as already mutated. -/
def syncFilesGo (env : EnvM) (needsFull : Bool) : Db → List MemoryFileEntry → Db × Option String
  | db, [] => (db, none)
  | db, e :: rest =>
    let record := (db.files.find? (fun f => f.path == e.path && f.source == "memory")).map
      (fun f => f.hash)
    if ¬ needsFull ∧ record = some e.hash then syncFilesGo env needsFull db rest
    else
      match indexFile env db e with
      | Except.error err => (db, some err)
      | Except.ok db1 => syncFilesGo env needsFull db1 rest

/-- The stale-file cleanup of syncMemoryFiles: rows of previously tracked
files no longer on disk are deleted. -/
def staleCleanup (env : EnvM) (activePaths : List String) (db : Db) : Db :=
  let stale := fun (p : String) =>
    (db.files.any (fun f => f.path == p && f.source == "memory")) && !(activePaths.contains p)
  { db with
    files := db.files.filter (fun f => !(stale f.path && f.source == "memory"))
    chunks := db.chunks.filter (fun c => !(stale c.path && c.source == "memory"))
    fts := if env.ftsEnabled && env.ftsAvailable then
        db.fts.filter (fun r => !(stale r.path && r.source == "memory" &&
          r.model == env.provider.model))
      else db.fts }

/-- The metadata record sync stores for the current configuration. -/
def nextMeta (env : EnvM) : MemoryIndexMeta :=
  ⟨env.provider.model, env.provider.id, env.providerKey, env.config.chunkTokens,
    env.config.chunkOverlap⟩

/-- The full-reindex decision of sync: forced, no (readable) prior metadata,
or any mismatch of model, provider, provider key or chunking parameters. -/
def needsFullReindex (env : EnvM) (db : Db) (force : Bool) : Bool :=
  force || (match readMeta db with
    | none => true
    | some m => decide (m ≠ nextMeta env))

/-- sync (manager): reset if needed, index changed files, clean up stale
files, then persist the new metadata; a failure while indexing aborts the call
before the metadata write.  The final database state is returned together with
the error, if any. -/
def sync (env : EnvM) (db : Db) (force : Bool) (fsFiles : List MemoryFileEntry) :
    Db × Option String :=
  match syncFilesGo env (needsFullReindex env db force)
      (if needsFullReindex env db force then resetIndex env db else db) fsFiles with
  | (db1, some e) => (db1, some e)
  | (db1, none) =>
    (writeMeta (staleCleanup env (fsFiles.map (fun f => f.path)) db1) (nextMeta env), none)

/-- Caller-supplied search options. -/
structure SearchOpts where
  maxResults : Option ℕ := none
  minScore : Option ℝ := none

/-- A result of the public search surface. -/
structure MemorySearchResult where
  path : String
  startLine : ℕ
  endLine : ℕ
  score : ℝ
  snippet : String

/-- The candidate overfetch limit of search. -/
def candidateLimit (maxResults : ℕ) : ℕ := min 200 (max 1 (maxResults * 3))

/-- search (manager): trim and reject empty queries, gather keyword results
when FTS is active, embed the query, skip vector scoring on an all-zero query
vector, fall back to vector-only results when FTS is unavailable, otherwise
merge, and finally filter by minimum score and truncate. -/
noncomputable def search (env : EnvM) (db : Db) (query : String) (opts : SearchOpts) :
    Except String (List MemorySearchResult) :=
  let cleaned := jsTrim query
  if cleaned = "" then Except.ok []
  else
    let minScore := opts.minScore.getD env.config.minScore
    let maxResults := opts.maxResults.getD env.config.maxResults
    let cands := candidateLimit maxResults
    let keywordResults := if env.ftsEnabled && env.ftsAvailable then
        searchKeyword env.ftsMatch cleaned cands SNIPPET_MAX_CHARS
      else []
    match env.provider.embedQuery cleaned with
    | Except.error e => Except.error e
    | Except.ok queryVec =>
      let hasVector := queryVec.any (fun v => v != 0)
      let vectorResults := if hasVector then
          searchVector db.chunks env.provider.model queryVec cands SNIPPET_MAX_CHARS "memory"
        else []
      if !env.ftsAvailable then
        Except.ok (((vectorResults.filter (fun r => decide (minScore ≤ r.score))).take
          maxResults).map (fun r => ⟨r.path, r.startLine, r.endLine, r.score, r.snippet⟩))
      else
        let merged := mergeHybridResults env.config.vectorWeight env.config.textWeight
          (vectorResults.map (fun r => ⟨r.id, r.path, r.startLine, r.endLine, "memory",
            r.snippet, r.score⟩))
          (keywordResults.map (fun r => ⟨r.id, r.path, r.startLine, r.endLine, "memory",
            r.snippet, r.textScore⟩))
        Except.ok (((merged.filter (fun r => decide (minScore ≤ r.score))).take maxResults).map
          (fun r => ⟨r.path, r.startLine, r.endLine, r.score, r.snippet⟩))

/-- The close-relevant state of one MemoryIndex instance: the idempotence flag
and how many times the database connection was closed. -/
structure CloseState where
  closed : Bool
  dbCloseCount : ℕ
deriving DecidableEq

/-- close (manager): a no-op once the instance is closed, otherwise marks it
closed and closes the database connection once. -/
def closeIndex (s : CloseState) : CloseState :=
  if s.closed then s else { closed := true, dbCloseCount := s.dbCloseCount + 1 }

/-- The character budget the chunker derives from a token budget (modelled
from the spec together with the sizing used by the repository's tests). -/
def chunkMaxCharsPerBudget (tokens : ℕ) : ℕ := tokens * chunkApproxCharsPerToken

/-- An empty database. -/
def dbEmpty : Db := ⟨[], [], [], MetaCell.absent, []⟩

/-- A minimal concrete environment used by concrete instantiations. -/
noncomputable def envTrivial : EnvM where
  config := ⟨400, 80, 6, 0.35, 0.7, 0.3⟩
  provider := ⟨"mock", "mock-model", fun _ => Except.ok [],
    fun ts => Except.ok (ts.map (fun _ => []))⟩
  providerKey := "pk"
  ftsEnabled := true
  ftsAvailable := true
  ftsMatch := fun _ _ => []
  chunkMarkdown := fun content _ _ => [⟨1, 1, content, "h"⟩]
  hashText := fun x => x
  stringifyVec := fun _ => "[]"

/-- A concrete environment whose provider embeds every query to the all-zero
vector and whose FTS index matches one keyword row at rank 0. -/
noncomputable def envC1 : EnvM where
  config := ⟨400, 80, 6, 0.35, 0.7, 0.3⟩
  provider := ⟨"mock", "mock-model", fun _ => Except.ok [0, 0],
    fun ts => Except.ok (ts.map (fun _ => []))⟩
  providerKey := "pk"
  ftsEnabled := true
  ftsAvailable := true
  ftsMatch := fun _ _ => [⟨"k1", "m.md", "memory", 3, 4, "kw text", 0⟩]
  chunkMarkdown := fun content _ _ => [⟨1, 1, content, "h"⟩]
  hashText := fun x => x
  stringifyVec := fun _ => "[]"

/-- A chunk row whose stored embedding is the empty JSON array. -/
def chunkRowEmptyEmb : ChunkRow :=
  ⟨"c1", "a.md", "memory", 1, 2, "h1", "mock-model", "text one", "[]", 0⟩

/-- A chunk row whose stored embedding parses to a vector of plain numbers. -/
def chunkRowUnitEmb : ChunkRow :=
  ⟨"c2", "b.md", "memory", 3, 4, "h2", "mock-model", "text two", "[1]", 0⟩

/-- A concrete environment whose provider fails every batch call. -/
noncomputable def envFail : EnvM where
  config := ⟨400, 80, 6, 0.35, 0.7, 0.3⟩
  provider := ⟨"mock", "mock-model", fun _ => Except.ok [],
    fun _ => Except.error "boom"⟩
  providerKey := "pk"
  ftsEnabled := true
  ftsAvailable := true
  ftsMatch := fun _ _ => []
  chunkMarkdown := fun content _ _ => [⟨1, 1, content, "h"⟩]
  hashText := fun x => x
  stringifyVec := fun _ => "[]"

/-- A concrete environment whose provider embeds every text to `[1]` and whose
chunker yields one nonblank and one whitespace-only chunk. -/
noncomputable def envS : EnvM where
  config := ⟨400, 80, 6, 0.35, 0.7, 0.3⟩
  provider := ⟨"mock", "mock-model", fun _ => Except.ok [1],
    fun ts => Except.ok (ts.map (fun _ => [1]))⟩
  providerKey := "pk"
  ftsEnabled := true
  ftsAvailable := true
  ftsMatch := fun _ _ => []
  chunkMarkdown := fun _ _ _ => [⟨1, 1, "hi", "h"⟩, ⟨2, 2, "   ", "hb"⟩]
  hashText := fun x => x
  stringifyVec := fun _ => "[]"

/-- A concrete file entry. -/
def fileW : MemoryFileEntry := ⟨"MEMORY.md", "fh", 5, 7, "hi"⟩

/-- The chunk row the concrete sync of `envS` is expected to persist. -/
def rowW : ChunkRow :=
  ⟨"memory:MEMORY.md:1:1:h:mock-model", "MEMORY.md", "memory", 1, 1, "h",
    "mock-model", "hi", "[]", 0⟩

/-- A database holding one embedding-cache row whose stored vector is corrupt
text. -/
def dbCorruptCache : Db :=
  ⟨[], [], [], MetaCell.absent, [⟨"mock", "mock-model", "pk", "h", "oops", 0, 0⟩]⟩

/-- A chunk as fed to the embedding pipeline in concrete instantiations. -/
def chunkW : MemoryChunk := ⟨1, 1, "hi", "h"⟩

/-- A database whose stored sync metadata record is corrupt. -/
def dbCorruptMeta : Db := ⟨[], [], [], MetaCell.corrupt, []⟩

/-- A concrete vector-only merge candidate. -/
noncomputable def vaW : VectorCandidate := ⟨"a", "memory/a.md", 1, 2, "memory", "vec-a", 0.9⟩

/-- A concrete keyword-only merge candidate. -/
noncomputable def kbW : KeywordCandidate := ⟨"b", "memory/b.md", 3, 4, "memory", "kw-b", 1⟩

/-- A concrete keyword candidate sharing the identity of `vaW`. -/
noncomputable def kaW : KeywordCandidate := ⟨"a", "memory/a.md", 1, 2, "memory", "kw-a", 1⟩

/-! ## Theorems -/

/-- C5: bm25RankToScore maps every non-positive rank to exactly 1.0, maps
rank 1 to exactly 0.5, is strictly decreasing over positive ranks, and its
value always lies in the half-open interval (0, 1]. -/
theorem C5_bm25RankToScore_spec :
    (∀ r : ℚ, r ≤ 0 → bm25RankToScore r = 1) ∧
    bm25RankToScore 1 = 1 / 2 ∧
    (∀ r s : ℚ, 0 < r → r < s → bm25RankToScore s < bm25RankToScore r) ∧
    (∀ r : ℚ, 0 < bm25RankToScore r ∧ bm25RankToScore r ≤ 1) := by
  refine ⟨?_, ?_, ?_, ?_⟩
  · intro r hr
    unfold bm25RankToScore
    rw [max_eq_left hr]
    norm_num
  · norm_num [bm25RankToScore]
  · intro r s hr hrs
    unfold bm25RankToScore
    rw [max_eq_right hr.le, max_eq_right (hr.trans hrs).le]
    exact one_div_lt_one_div_of_lt (by linarith) (by linarith)
  · intro r
    unfold bm25RankToScore
    have hm : (0 : ℚ) ≤ max 0 r := le_max_left 0 r
    constructor
    · exact div_pos one_pos (by linarith)
    · rw [div_le_one (by linarith)]
      linarith

/-- Witness for C5 at concrete ranks. -/
theorem C5_bm25RankToScore_spec_witness :
    bm25RankToScore (-100) = 1 ∧ bm25RankToScore 2 < bm25RankToScore 1 :=
  ⟨C5_bm25RankToScore_spec.1 (-100) (by norm_num),
    C5_bm25RankToScore_spec.2.2.1 1 2 (by norm_num) (by norm_num)⟩

/-- C9: close is idempotent: a second or any later call on the same instance
is a no-op returning successfully without closing the database connection
again. -/
theorem C9_close_idempotent :
    ∀ (s : CloseState) (n : ℕ),
      closeIndex^[n + 1] s = closeIndex s ∧
      (closeIndex (closeIndex s)).dbCloseCount = (closeIndex s).dbCloseCount := by
  have hstep : ∀ s : CloseState, closeIndex (closeIndex s) = closeIndex s := by
    intro s
    unfold closeIndex
    by_cases h : s.closed <;> simp [h]
  intro s n
  refine ⟨?_, by rw [hstep]⟩
  induction n with
  | zero => simp
  | succ m ih =>
    rw [Function.iterate_succ_apply', ih]
    exact hstep s

/-- C8: a query that is empty or whitespace-only (trims to the empty string)
makes search return the empty result list successfully, never an error,
regardless of the index contents and options. -/
theorem C8_empty_query_empty_result :
    ∀ (env : EnvM) (db : Db) (query : String) (opts : SearchOpts),
      jsTrim query = "" → search env db query opts = Except.ok [] := by
  intro env db query opts h
  unfold search
  simp [h]

/-- Witness for C8 on a whitespace-only query. -/
theorem C8_empty_query_empty_result_witness :
    search envTrivial dbEmpty "   " ⟨none, none⟩ = Except.ok [] :=
  C8_empty_query_empty_result envTrivial dbEmpty "   " ⟨none, none⟩ (by decide)

/-- C3 counterexample: the chars-per-token constant of the chunker and the one
used for embedding batch sizing are different. -/
theorem C3_counterexample :
    chunkApproxCharsPerToken ≠ EMBEDDING_APPROX_CHARS_PER_TOKEN := by decide

/-- C3 as amended: the chunker sizes a chunk at 4 characters per token while
embedding batch sizing estimates 1 character per token (the length itself);
the two constants are not one consistent constant. -/
theorem C3_amended_constants :
    (∀ t : ℕ, chunkMaxCharsPerBudget t = t * 4) ∧
    (∀ s : String, s ≠ "" → estimateEmbeddingTokens s = s.length) := by
  constructor
  · intro t; rfl
  · intro s hs
    unfold estimateEmbeddingTokens EMBEDDING_APPROX_CHARS_PER_TOKEN
    simp [hs]

/-- Witness for C3 at a concrete budget and text. -/
theorem C3_amended_constants_witness :
    chunkMaxCharsPerBudget 400 = 1600 ∧ estimateEmbeddingTokens "abcd" = 4 :=
  ⟨C3_amended_constants.1 400,
    by rw [C3_amended_constants.2 "abcd" (by decide)]; decide⟩

/-- The descending sort is a permutation. -/
theorem sortByDesc_perm {α : Type} (f : α → ℝ) (l : List α) : List.Perm (sortByDesc f l) l :=
  List.perm_insertionSort _ l

/-- A list whose filtering yields a singleton finds that element. -/
theorem find?_eq_of_filter_eq_singleton {α : Type} {p : α → Bool} :
    ∀ {l : List α} {a : α}, l.filter p = [a] → l.find? p = some a := by
  intro l
  induction l with
  | nil => intro a h; simp at h
  | cons x xs ih =>
    intro a h
    by_cases hx : p x = true
    · rw [List.filter_cons_of_pos hx] at h
      injection h with h1 h2
      rw [List.find?_cons_of_pos _ hx, h1]
    · rw [List.filter_cons_of_neg hx] at h
      rw [List.find?_cons_of_neg _ hx]
      exact ih h

/-- A list whose filtering is empty finds nothing. -/
theorem find?_eq_none_of_filter_eq_nil {α : Type} {p : α → Bool} {l : List α}
    (h : l.filter p = []) : l.find? p = none := by
  rw [List.find?_eq_none]
  intro x hx hpx
  have hmem : x ∈ l.filter p := List.mem_filter.mpr ⟨hx, hpx⟩
  rw [h] at hmem
  simp at hmem

/-- Every merged entry returned for an identity carries that identity. -/
theorem mergeEntry_id {vw tw : ℝ} {vs : List VectorCandidate} {ks : List KeywordCandidate}
    {j : String} {r : MergedResult} (h : mergeEntry vw tw vs ks j = some r) : r.id = j := by
  unfold mergeEntry at h
  cases hv : vs.find? (fun v => v.id == j) <;> cases hk : ks.find? (fun k => k.id == j) <;>
      rw [hv, hk] at h
  · exact absurd h (by simp)
  all_goals
    injection h with h1
    rw [← h1]

/-- Filtering the merged union by one identity over a duplicate-free identity
list isolates that identity's entry. -/
theorem filter_filterMap_mergeEntry (vw tw : ℝ) (vs : List VectorCandidate)
    (ks : List KeywordCandidate) (i : String) :
    ∀ J : List String, J.Nodup →
      (J.filterMap (mergeEntry vw tw vs ks)).filter (fun r => r.id == i) =
        if i ∈ J then (mergeEntry vw tw vs ks i).toList else [] := by
  intro J
  induction J with
  | nil => intro _; simp
  | cons j J ih =>
    intro hnd
    obtain ⟨hjJ, hndJ⟩ := List.nodup_cons.mp hnd
    cases hfj : mergeEntry vw tw vs ks j with
    | none =>
      rw [List.filterMap_cons, hfj]
      by_cases hij : j = i
      · subst hij
        rw [ih hndJ, if_neg hjJ, if_pos (List.mem_cons_self j J), hfj]
        rfl
      · have hnm : i ∉ [j] := by simp; exact fun hh => hij hh.symm
        rw [ih hndJ]
        by_cases hiJ : i ∈ J
        · rw [if_pos hiJ, if_pos (List.mem_cons_of_mem j hiJ)]
        · rw [if_neg hiJ, if_neg (by
            simp only [List.mem_cons]
            rintro (rfl | hh)
            · exact hij rfl
            · exact hiJ hh)]
    | some r =>
      have hid : r.id = j := mergeEntry_id hfj
      rw [List.filterMap_cons, hfj]
      by_cases hij : j = i
      · subst hij
        rw [List.filter_cons_of_pos (by simp [hid])]
        rw [ih hndJ, if_neg hjJ, if_pos (List.mem_cons_self j J), hfj]
        simp [Option.toList]
      · rw [List.filter_cons_of_neg (by simp [hid]; exact hij)]
        rw [ih hndJ]
        by_cases hiJ : i ∈ J
        · rw [if_pos hiJ, if_pos (List.mem_cons_of_mem j hiJ)]
        · rw [if_neg hiJ, if_neg (by
            simp only [List.mem_cons]
            rintro (rfl | hh)
            · exact hij rfl
            · exact hiJ hh)]

/-- Filtering the merger output by one identity yields exactly that
identity's merged entry, when the identity occurs at all. -/
theorem mergeHybridResults_filter_id (vw tw : ℝ) (vs : List VectorCandidate)
    (ks : List KeywordCandidate) (i : String) :
    (mergeHybridResults vw tw vs ks).filter (fun r => r.id == i) =
      if i ∈ vs.map (fun v => v.id) ++ ks.map (fun k => k.id)
      then (mergeEntry vw tw vs ks i).toList else [] := by
  have hperm := (sortByDesc_perm (fun r : MergedResult => r.score)
    (((vs.map (fun v => v.id) ++ ks.map (fun k => k.id)).dedup).filterMap
      (mergeEntry vw tw vs ks))).filter (fun r => r.id == i)
  rw [filter_filterMap_mergeEntry vw tw vs ks i _ (List.nodup_dedup _)] at hperm
  show (sortByDesc (fun r => r.score)
    (((vs.map (fun v => v.id) ++ ks.map (fun k => k.id)).dedup).filterMap
      (mergeEntry vw tw vs ks))).filter (fun r => r.id == i) = _
  by_cases him : i ∈ vs.map (fun v => v.id) ++ ks.map (fun k => k.id)
  · rw [if_pos (List.mem_dedup.mpr him)] at hperm
    rw [if_pos him]
    cases hfi : mergeEntry vw tw vs ks i with
    | none =>
      rw [hfi] at hperm
      simpa using hperm.eq_nil
    | some r =>
      rw [hfi] at hperm
      simpa using List.perm_singleton.mp (by simpa [Option.toList] using hperm)
  · rw [if_neg (fun hc => him (List.mem_dedup.mp hc))] at hperm
    rw [if_neg him]
    exact hperm.eq_nil

/-- C4: mergeHybridResults gives a candidate present in only one list the
combined score weight-of-that-list × its-own-score (the missing side
contributes exactly zero, with no renormalization of the weights), and a
candidate present in both lists vectorWeight × vectorScore +
textWeight × textScore. -/
theorem C4_merge_weighted_scores :
    (∀ (vw tw : ℝ) (vs : List VectorCandidate) (ks : List KeywordCandidate) (i : String)
        (v : VectorCandidate),
      vs.filter (fun x => x.id == i) = [v] → ks.filter (fun x => x.id == i) = [] →
      ((mergeHybridResults vw tw vs ks).filter (fun r => r.id == i)).map
        (fun r => r.score) = [vw * v.vectorScore]) ∧
    (∀ (vw tw : ℝ) (vs : List VectorCandidate) (ks : List KeywordCandidate) (i : String)
        (k : KeywordCandidate),
      vs.filter (fun x => x.id == i) = [] → ks.filter (fun x => x.id == i) = [k] →
      ((mergeHybridResults vw tw vs ks).filter (fun r => r.id == i)).map
        (fun r => r.score) = [tw * k.textScore]) ∧
    (∀ (vw tw : ℝ) (vs : List VectorCandidate) (ks : List KeywordCandidate) (i : String)
        (v : VectorCandidate) (k : KeywordCandidate),
      vs.filter (fun x => x.id == i) = [v] → ks.filter (fun x => x.id == i) = [k] →
      ((mergeHybridResults vw tw vs ks).filter (fun r => r.id == i)).map
        (fun r => r.score) = [vw * v.vectorScore + tw * k.textScore]) := by
  refine ⟨?_, ?_, ?_⟩
  · intro vw tw vs ks i v hv hk
    have hvmem : v ∈ vs.filter (fun x => x.id == i) := by rw [hv]; exact List.mem_singleton.mpr rfl
    obtain ⟨hvs, hvid⟩ := List.mem_filter.mp hvmem
    have him : i ∈ vs.map (fun x => x.id) ++ ks.map (fun x => x.id) :=
      List.mem_append_left _ (List.mem_map.mpr ⟨v, hvs, eq_of_beq hvid⟩)
    rw [mergeHybridResults_filter_id, if_pos him]
    unfold mergeEntry
    rw [find?_eq_of_filter_eq_singleton hv, find?_eq_none_of_filter_eq_nil hk]
    rfl
  · intro vw tw vs ks i k hv hk
    have hkmem : k ∈ ks.filter (fun x => x.id == i) := by rw [hk]; exact List.mem_singleton.mpr rfl
    obtain ⟨hks, hkid⟩ := List.mem_filter.mp hkmem
    have him : i ∈ vs.map (fun x => x.id) ++ ks.map (fun x => x.id) :=
      List.mem_append_right _ (List.mem_map.mpr ⟨k, hks, eq_of_beq hkid⟩)
    rw [mergeHybridResults_filter_id, if_pos him]
    unfold mergeEntry
    rw [find?_eq_none_of_filter_eq_nil hv, find?_eq_of_filter_eq_singleton hk]
    rfl
  · intro vw tw vs ks i v k hv hk
    have hvmem : v ∈ vs.filter (fun x => x.id == i) := by rw [hv]; exact List.mem_singleton.mpr rfl
    obtain ⟨hvs, hvid⟩ := List.mem_filter.mp hvmem
    have him : i ∈ vs.map (fun x => x.id) ++ ks.map (fun x => x.id) :=
      List.mem_append_left _ (List.mem_map.mpr ⟨v, hvs, eq_of_beq hvid⟩)
    rw [mergeHybridResults_filter_id, if_pos him]
    unfold mergeEntry
    rw [find?_eq_of_filter_eq_singleton hv, find?_eq_of_filter_eq_singleton hk]
    rfl

/-- Witness for C4 on the concrete candidates of the repository's hybrid
tests. -/
theorem C4_merge_weighted_scores_witness :
    ((mergeHybridResults 0.7 0.3 [vaW] [kbW]).filter (fun r => r.id == "a")).map
      (fun r => r.score) = [(0.7 : ℝ) * 0.9] ∧
    ((mergeHybridResults 0.7 0.3 [vaW] [kbW]).filter (fun r => r.id == "b")).map
      (fun r => r.score) = [(0.3 : ℝ) * 1] ∧
    ((mergeHybridResults 0.5 0.5 [vaW] [kaW]).filter (fun r => r.id == "a")).map
      (fun r => r.score) = [(0.5 : ℝ) * 0.9 + (0.5 : ℝ) * 1] := by
  refine ⟨?_, ?_, ?_⟩
  · have h := C4_merge_weighted_scores.1 0.7 0.3 [vaW] [kbW] "a" vaW
      (by simp [vaW]) (by simp [kbW])
    simpa [vaW] using h
  · have h := C4_merge_weighted_scores.2.1 0.7 0.3 [vaW] [kbW] "b" kbW
      (by simp [vaW]) (by simp [kbW])
    simpa [kbW] using h
  · have h := C4_merge_weighted_scores.2.2 0.5 0.5 [vaW] [kaW] "a" vaW kaW
      (by simp [vaW]) (by simp [kaW])
    simpa [vaW, kaW] using h

/-- Cosine similarity is the non-finite case on a nonempty zero-magnitude
vector on either side. -/
theorem cosineSimilarity_zero_mag (qv v : List ℚ) (hq : qv ≠ []) (hv : v ≠ [])
    (h : normSq qv = 0 ∨ normSq v = 0) : cosineSimilarity qv v = none := by
  unfold cosineSimilarity
  have hcond : ¬ (qv.isEmpty ∨ v.isEmpty) := by
    simp [List.isEmpty_iff, hq, hv]
  rw [if_neg hcond, if_pos]
  rcases h with h | h <;> rw [h] <;> simp

/-- C2 as amended: every hit searchVector returns stems from a stored chunk
whose cosine similarity is finite and equal to the returned score (non-finite
values are filtered out, so a nonempty stored vector of zero magnitude is
excluded, its similarity being the non-finite case); a stored vector parsing
to the empty vector, however, receives similarity exactly 0 and is not
excluded. -/
theorem C2_amended_vector_scoring :
    (∀ (chunks : List ChunkRow) (pm : String) (qv : List ℚ) (limit snip : ℕ) (src : String)
        (r : VectorHit), r ∈ searchVector chunks pm qv limit snip src →
      ∃ c ∈ listChunksM chunks pm src, r.id = c.id ∧
        cosineSimilarity qv (parseEmbedding c.embedding) = some r.score) ∧
    (∀ qv v : List ℚ, qv ≠ [] → v ≠ [] → (normSq qv = 0 ∨ normSq v = 0) →
      cosineSimilarity qv v = none) := by
  constructor
  · intro chunks pm qv limit snip src r hr
    unfold searchVector at hr
    by_cases hguard : qv.isEmpty || limit == 0
    · rw [if_pos hguard] at hr
      simp at hr
    · rw [if_neg hguard] at hr
      obtain ⟨p, hp, hproj⟩ := List.mem_map.mp hr
      have hp2 := List.mem_of_mem_take hp
      have hp3 := ((sortByDesc_perm (fun p : ChunkRow × ℝ => p.2) _).mem_iff).mp hp2
      obtain ⟨c, hc, hsome⟩ := List.mem_filterMap.mp hp3
      obtain ⟨sc, hcos, hpair⟩ := Option.map_eq_some'.mp hsome
      refine ⟨c, hc, ?_, ?_⟩
      · rw [← hproj, ← hpair]
      · rw [← hproj, ← hpair]
        exact hcos
  · exact cosineSimilarity_zero_mag

/-- C2 counterexample: a chunk whose stored vector is the empty JSON array —
a vector of zero magnitude — is not excluded from the ranked output of
searchVector; it is returned with similarity score 0. -/
theorem C2_counterexample :
    normSq (parseEmbedding chunkRowEmptyEmb.embedding) = 0 ∧
    searchVector [chunkRowEmptyEmb] "mock-model" [1] 5 SNIPPET_MAX_CHARS "memory" =
      [⟨"c1", "a.md", 1, 2, 0, "text one", "memory"⟩] := by
  have hpe : parseEmbedding "[]" = ([] : List ℚ) := by
    simp [parseEmbedding, parseNumArray, skipWs, isJsonWs]
  have hcos : cosineSimilarity [1] (parseEmbedding "[]") = some 0 := by
    rw [hpe]
    simp [cosineSimilarity]
  have htr : truncateUtf16Safe "text one" SNIPPET_MAX_CHARS = "text one" := by decide
  constructor
  · rw [show chunkRowEmptyEmb.embedding = "[]" from rfl, hpe]
    rfl
  · unfold searchVector
    rw [if_neg (by decide)]
    rw [show listChunksM [chunkRowEmptyEmb] "mock-model" "memory" = [chunkRowEmptyEmb]
      from by decide]
    rw [List.filterMap_cons]
    rw [show chunkRowEmptyEmb.embedding = "[]" from rfl, hcos]
    simp only [Option.map_some', List.filterMap_nil]
    rw [show sortByDesc (fun p : ChunkRow × ℝ => p.2) [(chunkRowEmptyEmb, (0 : ℝ))] =
      [(chunkRowEmptyEmb, (0 : ℝ))] from by simp [sortByDesc]]
    simp [chunkRowEmptyEmb, htr]

/-- Witness for C2 at concrete vectors and one concrete stored chunk. -/
theorem C2_amended_vector_scoring_witness :
    cosineSimilarity [1] [0, 0] = none ∧
    (∃ c ∈ listChunksM [chunkRowUnitEmb] "mock-model" "memory",
      (⟨"c2", "b.md", 3, 4, 1, "text two", "memory"⟩ : VectorHit).id = c.id ∧
      cosineSimilarity [1] (parseEmbedding c.embedding) =
        some (⟨"c2", "b.md", 3, 4, 1, "text two", "memory"⟩ : VectorHit).score) := by
  have hpe1 : parseEmbedding "[1]" = ([1] : List ℚ) := by
    simp [parseEmbedding, parseNumArray, parseElems, parseNumber, parseFrac, parseExp,
      spanDigits, skipWs, digitsToNat, isJsonWs]
  have hns : normSq ([1] : List ℚ) = 1 := by norm_num [normSq, dotQ]
  have hd : dotQ [1] [1] = 1 := by norm_num [dotQ]
  have hcos1 : cosineSimilarity [1] [1] = some 1 := by
    unfold cosineSimilarity
    rw [if_neg (by simp), if_neg]
    · rw [hd, hns]
      norm_num
    · rw [hns]
      norm_num
  constructor
  · exact C2_amended_vector_scoring.2 [1] [0, 0] (by decide) (by decide)
      (Or.inr (by norm_num [normSq, dotQ]))
  · refine C2_amended_vector_scoring.1 [chunkRowUnitEmb] "mock-model" [1] 5 SNIPPET_MAX_CHARS
      "memory" _ ?_
    have htr : truncateUtf16Safe "text two" SNIPPET_MAX_CHARS = "text two" := by decide
    have hsv : searchVector [chunkRowUnitEmb] "mock-model" [1] 5 SNIPPET_MAX_CHARS "memory" =
        [⟨"c2", "b.md", 3, 4, 1, "text two", "memory"⟩] := by
      unfold searchVector
      rw [if_neg (by decide)]
      rw [show listChunksM [chunkRowUnitEmb] "mock-model" "memory" = [chunkRowUnitEmb]
        from by decide]
      rw [List.filterMap_cons]
      rw [show chunkRowUnitEmb.embedding = "[1]" from rfl, hpe1, hcos1]
      simp only [Option.map_some', List.filterMap_nil]
      rw [show sortByDesc (fun p : ChunkRow × ℝ => p.2) [(chunkRowUnitEmb, (1 : ℝ))] =
        [(chunkRowUnitEmb, (1 : ℝ))] from by simp [sortByDesc]]
      simp [chunkRowUnitEmb, htr]
    rw [hsv]
    exact List.mem_singleton.mpr rfl

/-- A filterMap by a function that succeeds on every element is a map. -/
theorem filterMap_eq_map_of_mem {α β : Type} {f : α → Option β} {g : α → β} :
    ∀ {l : List α}, (∀ a ∈ l, f a = some (g a)) → l.filterMap f = l.map g := by
  intro l
  induction l with
  | nil => intro _; rfl
  | cons x xs ih =>
    intro h
    rw [List.filterMap_cons, h x (List.mem_cons_self x xs), List.map_cons,
      ih (fun a ha => h a (List.mem_cons_of_mem x ha))]

/-- Under duplicate-free identities, searching a list for an element's own
identity finds that element. -/
theorem find?_beq_id_self {α : Type} (idOf : α → String) :
    ∀ (l : List α), (l.map idOf).Nodup →
      ∀ a ∈ l, l.find? (fun x => idOf x == idOf a) = some a := by
  intro l
  induction l with
  | nil => intro _ a ha; simp at ha
  | cons x xs ih =>
    intro hnd a ha
    rw [List.map_cons, List.nodup_cons] at hnd
    obtain ⟨hx, hndxs⟩ := hnd
    rcases List.mem_cons.mp ha with rfl | hmem
    · rw [List.find?_cons_of_pos _ (by simp)]
    · have hne : idOf x ≠ idOf a := by
        intro hEq
        apply hx
        rw [hEq]
        exact List.mem_map.mpr ⟨a, hmem, rfl⟩
      rw [List.find?_cons_of_neg _ (by simp [hne]), ih hndxs a hmem]

/-- With no vector candidates the merger yields exactly the keyword
candidates, each scored textWeight × textScore, sorted descending by that
score. -/
theorem mergeHybridResults_nil_vector (vw tw : ℝ) (ks : List KeywordCandidate)
    (h : (ks.map (fun k => k.id)).Nodup) :
    mergeHybridResults vw tw [] ks = sortByDesc (fun r => r.score)
      (ks.map (fun k => ⟨k.id, k.path, k.startLine, k.endLine, k.source, k.snippet,
        tw * k.textScore⟩)) := by
  simp only [mergeHybridResults, List.map_nil, List.nil_append, List.dedup_eq_self.mpr h]
  congr 1
  rw [List.filterMap_map]
  apply filterMap_eq_map_of_mem
  intro k hk
  show mergeEntry vw tw [] ks k.id = _
  unfold mergeEntry
  rw [show (List.find? (fun v => v.id == k.id) ([] : List VectorCandidate)) = none from rfl,
    find?_beq_id_self (fun k : KeywordCandidate => k.id) ks h k hk]

/-- C1 as amended: on an all-zero embedded query vector with FTS available,
vector scoring is skipped (the vector candidate list is empty), but the hybrid
merger is still applied: search returns the keyword hits scored
textWeight × textScore, sorted descending by that weighted score, filtered by
minScore and truncated to maxResults — not the raw keyword-only scores. -/
theorem C1_amended_zero_vector_path :
    ∀ (env : EnvM) (db : Db) (query : String) (opts : SearchOpts) (qv : List ℚ),
      env.ftsEnabled = true → env.ftsAvailable = true →
      jsTrim query ≠ "" →
      env.provider.embedQuery (jsTrim query) = Except.ok qv →
      (∀ x ∈ qv, x = 0) →
      ((searchKeyword env.ftsMatch (jsTrim query)
          (candidateLimit (opts.maxResults.getD env.config.maxResults))
          SNIPPET_MAX_CHARS).map (fun k => k.id)).Nodup →
      search env db query opts = Except.ok
        ((((sortByDesc (fun r : MergedResult => r.score)
          ((searchKeyword env.ftsMatch (jsTrim query)
              (candidateLimit (opts.maxResults.getD env.config.maxResults))
              SNIPPET_MAX_CHARS).map
            (fun k => ⟨k.id, k.path, k.startLine, k.endLine, "memory", k.snippet,
              env.config.textWeight * k.textScore⟩))).filter
          (fun r => decide ((opts.minScore.getD env.config.minScore) ≤ r.score))).take
          (opts.maxResults.getD env.config.maxResults)).map
          (fun r => ⟨r.path, r.startLine, r.endLine, r.score, r.snippet⟩)) := by
  intro env db query opts qv hen hav hq hembed hzero hnd
  have hanyz : qv.any (fun v => v != 0) = false := by
    rw [List.any_eq_false]
    intro x hx
    simp [hzero x hx]
  have hks : ((searchKeyword env.ftsMatch (jsTrim query)
      (candidateLimit (opts.maxResults.getD env.config.maxResults))
      SNIPPET_MAX_CHARS).map (fun r : KeywordHit =>
        (⟨r.id, r.path, r.startLine, r.endLine, "memory", r.snippet, r.textScore⟩ :
          KeywordCandidate))).map (fun k => k.id) =
      (searchKeyword env.ftsMatch (jsTrim query)
        (candidateLimit (opts.maxResults.getD env.config.maxResults))
        SNIPPET_MAX_CHARS).map (fun k => k.id) := by
    rw [List.map_map]
    rfl
  simp only [search, if_neg hq, hen, hav, Bool.and_self, if_true, hembed, hanyz,
    Bool.not_true, Bool.false_eq_true, if_false, List.map_nil]
  rw [mergeHybridResults_nil_vector _ _ _ (by rw [hks]; exact hnd)]
  rw [List.map_map]
  rfl

/-- C1 counterexample: with an all-zero embedded query vector, search does not
bypass the merger: the single keyword hit (raw BM25 rank 0, keyword score 1)
is returned with score textWeight × 1 = 0.3, not with its keyword score. -/
theorem C1_counterexample :
    search envC1 dbEmpty "hello" ⟨some 6, some 0⟩ =
      Except.ok [⟨"m.md", 3, 4, envC1.config.textWeight * ((bm25RankToScore 0 : ℚ) : ℝ),
        "kw text"⟩] ∧
    envC1.config.textWeight * ((bm25RankToScore 0 : ℚ) : ℝ) ≠ ((bm25RankToScore 0 : ℚ) : ℝ) := by
  have hts : ((bm25RankToScore 0 : ℚ) : ℝ) = 1 := by
    norm_num [bm25RankToScore]
  constructor
  · have h1 : jsTrim "hello" = "hello" := by decide
    have hfq : buildFtsQuery "hello" = some "\"hello\"" := by
      simp only [buildFtsQuery, wordTokensAux, isWordChar]
      rfl
    have hsk : searchKeyword envC1.ftsMatch "hello" (candidateLimit 6) SNIPPET_MAX_CHARS =
        [⟨"k1", "m.md", 3, 4, ((bm25RankToScore 0 : ℚ) : ℝ), ((bm25RankToScore 0 : ℚ) : ℝ),
          "kw text", "memory"⟩] := by
      unfold searchKeyword
      rw [if_neg (by decide), hfq]
      dsimp only
      rw [show envC1.ftsMatch "\"hello\"" (candidateLimit 6) =
        [⟨"k1", "m.md", "memory", 3, 4, "kw text", 0⟩] from rfl]
      rw [List.map_cons, List.map_nil]
      have htr : truncateUtf16Safe "kw text" SNIPPET_MAX_CHARS = "kw text" := by decide
      rw [htr]
    have hmg : mergeHybridResults envC1.config.vectorWeight envC1.config.textWeight []
        [⟨"k1", "m.md", 3, 4, "memory", "kw text", ((bm25RankToScore 0 : ℚ) : ℝ)⟩] =
        [⟨"k1", "m.md", 3, 4, "memory", "kw text",
          envC1.config.textWeight * ((bm25RankToScore 0 : ℚ) : ℝ)⟩] := by
      rw [mergeHybridResults_nil_vector _ _ _ (by simp)]
      simp [sortByDesc]
    simp only [search, h1, if_neg (by decide : ¬ ("hello" : String) = ""),
      show envC1.ftsEnabled = true from rfl, show envC1.ftsAvailable = true from rfl,
      Bool.and_self, if_true,
      show envC1.provider.embedQuery "hello" = Except.ok [0, 0] from rfl,
      show ([(0 : ℚ), 0].any (fun v => v != 0)) = false from by decide,
      Bool.false_eq_true, if_false, Bool.not_true]
    rw [show (⟨some 6, some 0⟩ : SearchOpts).maxResults.getD envC1.config.maxResults = 6
      from rfl]
    rw [hsk]
    rw [List.map_nil, List.map_cons, List.map_nil]
    rw [hmg]
    rw [List.filter_cons_of_pos (by
      rw [hts]
      simp only [decide_eq_true_eq]
      rw [show (⟨some 6, some 0⟩ : SearchOpts).minScore.getD envC1.config.minScore = 0
        from rfl]
      norm_num [envC1])]
    rw [List.filter_nil]
    rfl
  · rw [hts]
    norm_num [envC1]

/-- Witness for C1 on a concrete zero-vector query. -/
theorem C1_amended_zero_vector_path_witness :
    search envC1 dbEmpty "world" ⟨some 6, some 0⟩ =
      Except.ok [⟨"m.md", 3, 4, envC1.config.textWeight * ((bm25RankToScore 0 : ℚ) : ℝ),
        "kw text"⟩] := by
  have hjt : jsTrim "world" = "world" := by decide
  have hfq : buildFtsQuery "world" = some "\"world\"" := by
    simp only [buildFtsQuery, wordTokensAux, isWordChar]
    rfl
  have hsk : searchKeyword envC1.ftsMatch "world" (candidateLimit 6) SNIPPET_MAX_CHARS =
      [⟨"k1", "m.md", 3, 4, ((bm25RankToScore 0 : ℚ) : ℝ), ((bm25RankToScore 0 : ℚ) : ℝ),
        "kw text", "memory"⟩] := by
    unfold searchKeyword
    rw [if_neg (by decide), hfq]
    dsimp only
    rw [show envC1.ftsMatch "\"world\"" (candidateLimit 6) =
      [⟨"k1", "m.md", "memory", 3, 4, "kw text", 0⟩] from rfl]
    rw [List.map_cons, List.map_nil]
    have htr : truncateUtf16Safe "kw text" SNIPPET_MAX_CHARS = "kw text" := by decide
    rw [htr]
  have hmax : (⟨some 6, some 0⟩ : SearchOpts).maxResults.getD envC1.config.maxResults = 6 := rfl
  have hmin : (⟨some 6, some 0⟩ : SearchOpts).minScore.getD envC1.config.minScore = 0 := rfl
  have h := C1_amended_zero_vector_path envC1 dbEmpty "world" ⟨some 6, some 0⟩ [0, 0]
    rfl rfl (by decide) (by rw [hjt]; rfl)
    (by intro x hx; simp at hx; exact hx)
    (by rw [hjt, hmax, hsk]; simp)
  rw [h, hjt, hmax, hmin, hsk]
  rw [List.map_cons, List.map_nil]
  rw [show sortByDesc (fun r : MergedResult => r.score)
      [⟨"k1", "m.md", 3, 4, "memory", "kw text",
        envC1.config.textWeight * ((bm25RankToScore 0 : ℚ) : ℝ)⟩] =
      [⟨"k1", "m.md", 3, 4, "memory", "kw text",
        envC1.config.textWeight * ((bm25RankToScore 0 : ℚ) : ℝ)⟩] from by simp [sortByDesc]]
  rw [List.filter_cons_of_pos (by
    simp only [decide_eq_true_eq]
    norm_num [envC1, bm25RankToScore])]
  rw [List.filter_nil]
  rfl

/-- The cache upsert changes only the cache table. -/
theorem upsertEmbeddingCache_state (env : EnvM) (db : Db) (entries : List (String × List ℚ)) :
    (upsertEmbeddingCache env db entries).files = db.files ∧
    (upsertEmbeddingCache env db entries).chunks = db.chunks ∧
    (upsertEmbeddingCache env db entries).fts = db.fts ∧
    (upsertEmbeddingCache env db entries).metaCell = db.metaCell :=
  ⟨rfl, rfl, rfl, rfl⟩

/-- A successful embedding pass changes only the cache table. -/
theorem embedChunksInBatches_ok_state {env : EnvM} {db : Db} {chunks : List MemoryChunk}
    {db1 : Db} {es : List (List ℚ)}
    (h : embedChunksInBatches env db chunks = Except.ok (db1, es)) :
    db1.files = db.files ∧ db1.chunks = db.chunks ∧ db1.fts = db.fts ∧
      db1.metaCell = db.metaCell := by
  simp only [embedChunksInBatches] at h
  split at h
  · rw [Except.ok.injEq, Prod.mk.injEq] at h
    rw [← h.1]
    exact ⟨rfl, rfl, rfl, rfl⟩
  · split at h
    · rw [Except.ok.injEq, Prod.mk.injEq] at h
      rw [← h.1]
      exact ⟨rfl, rfl, rfl, rfl⟩
    · split at h
      · exact absurd h (by simp)
      · rw [Except.ok.injEq, Prod.mk.injEq] at h
        rw [← h.1]
        exact ⟨rfl, rfl, rfl, rfl⟩

/-- The chunk insert loop changes only the chunks and FTS tables. -/
theorem insertChunks_state (env : EnvM) (entry : MemoryFileEntry) :
    ∀ (cs : List MemoryChunk) (db : Db) (embs : List (List ℚ)),
      (insertChunks env entry db cs embs).files = db.files ∧
      (insertChunks env entry db cs embs).metaCell = db.metaCell ∧
      (insertChunks env entry db cs embs).cache = db.cache := by
  intro cs
  induction cs with
  | nil => intro db embs; exact ⟨rfl, rfl, rfl⟩
  | cons c cs ih =>
    intro db embs
    simp only [insertChunks]
    exact ih _ _

/-- A successful indexFile call leaves the metadata cell unchanged. -/
theorem metaCell_indexFile {env : EnvM} {db : Db} {entry : MemoryFileEntry} {db1 : Db}
    (h : indexFile env db entry = Except.ok db1) : db1.metaCell = db.metaCell := by
  simp only [indexFile] at h
  split at h
  · exact absurd h (by simp)
  · rename_i dbe embeddings heq
    rw [Except.ok.injEq] at h
    rw [← h]
    show (insertChunks env entry _ _ _).metaCell = db.metaCell
    rw [(insertChunks_state env entry _ _ _).2.1]
    exact (embedChunksInBatches_ok_state heq).2.2.2

/-- The per-file sync loop leaves the metadata cell unchanged, whether it
succeeds or aborts. -/
theorem metaCell_syncFilesGo (env : EnvM) (needsFull : Bool) :
    ∀ (fs : List MemoryFileEntry) (db : Db),
      (syncFilesGo env needsFull db fs).1.metaCell = db.metaCell := by
  intro fs
  induction fs with
  | nil => intro db; rfl
  | cons e rest ih =>
    intro db
    rw [syncFilesGo]
    split
    · exact ih db
    · split
      · rfl
      · rename_i db2 heq
        rw [ih db2, metaCell_indexFile heq]

/-- C6: if a provider error occurs while indexing any file during sync, the
whole sync call fails with that error and the stored sync metadata record is
not updated: the metadata cell after the failed call equals the one before. -/
theorem C6_sync_failure_preserves_metadata :
    ∀ (env : EnvM) (db : Db) (force : Bool) (fsFiles : List MemoryFileEntry) (e : String),
      (sync env db force fsFiles).2 = some e →
      (sync env db force fsFiles).1.metaCell = db.metaCell := by
  intro env db force fs e herr
  unfold sync at herr ⊢
  rcases hs : syncFilesGo env (needsFullReindex env db force)
      (if needsFullReindex env db force then resetIndex env db else db) fs with ⟨db1, err⟩
  rw [hs] at herr
  have h1 : db1.metaCell = db.metaCell := by
    have h2 := metaCell_syncFilesGo env (needsFullReindex env db force) fs
      (if needsFullReindex env db force then resetIndex env db else db)
    rw [hs] at h2
    rw [show (db1, err).1 = db1 from rfl] at h2
    rw [h2]
    by_cases hh : needsFullReindex env db force = true
    · rw [if_pos hh]
      rfl
    · rw [if_neg hh]
  cases err with
  | none => exact Option.noConfusion herr
  | some e2 => exact h1

/-- Witness for C6: a failing provider aborts a concrete sync with its error
and the stored metadata is unchanged. -/
theorem C6_sync_failure_preserves_metadata_witness :
    (sync envFail dbEmpty false [fileW]).2 = some "boom" ∧
    (sync envFail dbEmpty false [fileW]).1.metaCell = dbEmpty.metaCell := by
  have h2 : (sync envFail dbEmpty false [fileW]).2 = some "boom" := by decide
  exact ⟨h2, C6_sync_failure_preserves_metadata envFail dbEmpty false [fileW] "boom" h2⟩

/-- C7: a corrupt (unparseable) stored embedding vector parses to the empty
vector and is treated by the cache lookup of embedChunksInBatches as a miss,
so the chunk is re-embedded through the provider with no error raised; a
corrupt stored sync metadata record reads as no prior metadata, so sync
decides on a full reindex and proceeds without error. -/
theorem C7_corrupt_data_tolerated :
    (∀ raw : String, parseNumArray raw = none → parseEmbedding raw = []) ∧
    (∀ (env : EnvM) (db : Db) (c : MemoryChunk) (v : List ℚ),
      c.hash ≠ "" →
      cacheLookup db env.provider.id env.provider.model env.providerKey c.hash = some [] →
      estimateEmbeddingTokens c.text ≤ EMBEDDING_BATCH_MAX_TOKENS →
      env.provider.embedBatch [c.text] = Except.ok [v] →
      embedChunksInBatches env db [c] =
        Except.ok (upsertEmbeddingCache env db [(c.hash, v)], [v])) ∧
    (∀ db : Db, db.metaCell = MetaCell.corrupt → readMeta db = none) ∧
    (∀ (env : EnvM) (db : Db) (force : Bool), db.metaCell = MetaCell.corrupt →
      needsFullReindex env db force = true) ∧
    (∀ (env : EnvM) (db : Db), db.metaCell = MetaCell.corrupt →
      (sync env db false []).2 = none) := by
  have hread : ∀ db : Db, db.metaCell = MetaCell.corrupt → readMeta db = none := by
    intro db h
    unfold readMeta
    rw [h]
  refine ⟨?_, ?_, hread, ?_, ?_⟩
  · intro raw h
    unfold parseEmbedding
    rw [h]
    rfl
  · intro env db c v hhash hlook hest hbatch
    have hhit : cacheHit env db c = none := by
      unfold cacheHit
      rw [if_neg hhash, hlook]
      rfl
    have hmiss : List.filter (fun c => (cacheHit env db c).isNone) [c] = [c] := by
      rw [List.filter_cons_of_pos (by rw [hhit]; rfl), List.filter_nil]
    have hbat : buildEmbeddingBatches [c] = [[c]] := by
      unfold buildEmbeddingBatches buildBatchesGo
      rw [if_neg (fun hcon => hcon.1 rfl)]
      rw [if_neg (fun hcon => absurd hcon.2 (by omega))]
      rfl
    have hseq : embedBatchesSeq env.provider.embedBatch [[c]] = Except.ok [v] := by
      unfold embedBatchesSeq
      rw [show List.map (fun x : MemoryChunk => x.text) [c] = [c.text] from rfl, hbatch]
      rfl
    unfold embedChunksInBatches
    rw [if_neg (by simp), hmiss]
    rw [if_neg (by simp), hbat, hseq]
    dsimp only
    have hre : reassemble (cacheHit env db) [c] [v] = [v] := by
      unfold reassemble
      rw [hhit]
      rfl
    rw [hre]
    rfl
  · intro env db force h
    unfold needsFullReindex
    rw [hread db h]
    simp
  · intro env db h
    unfold sync
    rw [show syncFilesGo env (needsFullReindex env db false)
      (if needsFullReindex env db false then resetIndex env db else db) [] =
      ((if needsFullReindex env db false then resetIndex env db else db), none) from rfl]

/-- Witness for C7 on a concrete corrupt cache row and a concrete corrupt
metadata record. -/
theorem C7_corrupt_data_tolerated_witness :
    parseEmbedding "oops" = [] ∧
    embedChunksInBatches envS dbCorruptCache [chunkW] =
      Except.ok (upsertEmbeddingCache envS dbCorruptCache [("h", [1])], [[1]]) ∧
    readMeta dbCorruptMeta = none ∧
    needsFullReindex envS dbCorruptMeta false = true ∧
    (sync envS dbCorruptMeta false []).2 = none := by
  refine ⟨C7_corrupt_data_tolerated.1 "oops" (by simp [parseNumArray, skipWs, isJsonWs]),
    ?_, C7_corrupt_data_tolerated.2.2.1 dbCorruptMeta rfl,
    C7_corrupt_data_tolerated.2.2.2.1 envS dbCorruptMeta false rfl,
    C7_corrupt_data_tolerated.2.2.2.2 envS dbCorruptMeta rfl⟩
  have h := C7_corrupt_data_tolerated.2.1 envS dbCorruptCache chunkW [1]
    (by decide)
    (by simp [cacheLookup, dbCorruptCache, chunkW, envS, parseEmbedding, parseNumArray, skipWs,
      isJsonWs])
    (by decide)
    rfl
  exact h

/-- The chunk upsert preserves nonblank chunk text. -/
theorem chunkOk_upsertChunkRow {rows : List ChunkRow} {r : ChunkRow}
    (hrows : ∀ x ∈ rows, 0 < (jsTrim x.text).length) (hr : 0 < (jsTrim r.text).length) :
    ∀ x ∈ upsertChunkRow rows r, 0 < (jsTrim x.text).length := by
  intro x hx
  unfold upsertChunkRow at hx
  split at hx
  · obtain ⟨y, hy, hxy⟩ := List.mem_map.mp hx
    by_cases hid : (y.id == r.id) = true
    · rw [if_pos hid] at hxy
      rw [← hxy]
      exact hr
    · rw [if_neg hid] at hxy
      rw [← hxy]
      exact hrows y hy
  · rcases List.mem_append.mp hx with h | h
    · exact hrows x h
    · rw [List.mem_singleton.mp h]
      exact hr

/-- The chunk insert loop preserves nonblank chunk text when every inserted
chunk is nonblank. -/
theorem chunkOk_insertChunks (env : EnvM) (entry : MemoryFileEntry) :
    ∀ (cs : List MemoryChunk) (db : Db) (embs : List (List ℚ)),
      (∀ x ∈ db.chunks, 0 < (jsTrim x.text).length) →
      (∀ c ∈ cs, 0 < (jsTrim c.text).length) →
      ∀ x ∈ (insertChunks env entry db cs embs).chunks, 0 < (jsTrim x.text).length := by
  intro cs
  induction cs with
  | nil => intro db embs hdb _ x hx; exact hdb x hx
  | cons c cs ih =>
    intro db embs hdb hcs
    simp only [insertChunks]
    apply ih
    · intro x hx
      exact chunkOk_upsertChunkRow hdb (hcs c (List.mem_cons_self c cs)) x hx
    · intro a ha
      exact hcs a (List.mem_cons_of_mem c ha)

/-- A successful indexFile call preserves nonblank chunk text: whitespace-only
chunks are filtered out before any insert. -/
theorem chunkOk_indexFile {env : EnvM} {db : Db} {entry : MemoryFileEntry} {db1 : Db}
    (h : indexFile env db entry = Except.ok db1)
    (hdb : ∀ x ∈ db.chunks, 0 < (jsTrim x.text).length) :
    ∀ x ∈ db1.chunks, 0 < (jsTrim x.text).length := by
  simp only [indexFile] at h
  split at h
  · exact absurd h (by simp)
  · rename_i dbe embeddings heq
    rw [Except.ok.injEq] at h
    rw [← h]
    intro x hx
    refine chunkOk_insertChunks env entry _ _ _ ?_ ?_ x hx
    · intro y hy
      have hy2 := List.mem_filter.mp hy
      rw [(embedChunksInBatches_ok_state heq).2.1] at hy2
      exact hdb y hy2.1
    · intro c hc
      have hc2 := List.mem_filter.mp hc
      simpa using hc2.2

/-- The per-file sync loop preserves nonblank chunk text, whether it succeeds
or aborts. -/
theorem chunkOk_syncFilesGo (env : EnvM) (needsFull : Bool) :
    ∀ (fs : List MemoryFileEntry) (db : Db),
      (∀ x ∈ db.chunks, 0 < (jsTrim x.text).length) →
      ∀ x ∈ (syncFilesGo env needsFull db fs).1.chunks, 0 < (jsTrim x.text).length := by
  intro fs
  induction fs with
  | nil => intro db hdb; exact hdb
  | cons e rest ih =>
    intro db hdb
    rw [syncFilesGo]
    split
    · exact ih db hdb
    · split
      · exact hdb
      · rename_i db2 heq
        exact ih db2 (chunkOk_indexFile heq hdb)

/-- C10: after every sync — forced or not, successful or aborted — every chunk
row persisted in the index has text whose whitespace-trimmed length is
positive: whitespace-only chunks produced by the chunker are filtered out
before any database write. -/
theorem C10_chunks_nonblank_after_sync :
    ∀ (env : EnvM) (db : Db) (force : Bool) (fsFiles : List MemoryFileEntry),
      (∀ x ∈ db.chunks, 0 < (jsTrim x.text).length) →
      ∀ x ∈ (sync env db force fsFiles).1.chunks, 0 < (jsTrim x.text).length := by
  intro env db force fs hdb
  unfold sync
  have hdb0 : ∀ x ∈ (if needsFullReindex env db force then resetIndex env db
      else db).chunks, 0 < (jsTrim x.text).length := by
    by_cases hh : needsFullReindex env db force = true
    · rw [if_pos hh]
      intro x hx
      simp [resetIndex] at hx
    · rw [if_neg hh]
      exact hdb
  rcases hs : syncFilesGo env (needsFullReindex env db force)
      (if needsFullReindex env db force then resetIndex env db else db) fs with ⟨db1, err⟩
  have h1 : ∀ x ∈ db1.chunks, 0 < (jsTrim x.text).length := by
    have h2 := chunkOk_syncFilesGo env (needsFullReindex env db force) fs
      (if needsFullReindex env db force then resetIndex env db else db) hdb0
    rw [hs] at h2
    exact h2
  cases err with
  | some e2 => exact h1
  | none =>
    intro x hx
    have hx2 : x ∈ (staleCleanup env (fs.map (fun f => f.path)) db1).chunks := hx
    unfold staleCleanup at hx2
    simp only [List.mem_filter] at hx2
    exact h1 x hx2.1

/-- Witness for C10: a concrete sync whose chunker emits one nonblank and one
whitespace-only chunk persists exactly the nonblank row. -/
theorem C10_chunks_nonblank_after_sync_witness :
    (sync envS dbEmpty false [fileW]).1.chunks = [rowW] ∧
    0 < (jsTrim rowW.text).length := by
  have hrun : (sync envS dbEmpty false [fileW]).1.chunks = [rowW] := by decide
  refine ⟨hrun, ?_⟩
  exact C10_chunks_nonblank_after_sync envS dbEmpty false [fileW]
    (by intro x hx; simp [dbEmpty] at hx) rowW (by rw [hrun]; exact List.mem_singleton.mpr rfl)

end MemorySearch

namespace MemorySearch

/-- The modelled JSON number-array parser accepts the array of the
repository's parseEmbedding test. -/
theorem parseNumArray_accepts_number_array : parseNumArray "[1, 2, 3]" = some [1, 2, 3] := by
  simp [parseNumArray, parseElems, parseNumber, parseFrac, parseExp, spanDigits, skipWs,
    digitsToNat, isJsonWs]

/-- The modelled parser rejects non-JSON text, per the repository's tests. -/
theorem parseNumArray_rejects_invalid : parseNumArray "invalid" = none := by
  simp [parseNumArray, skipWs, isJsonWs]

/-- The modelled parser rejects the empty string, per the repository's
tests. -/
theorem parseNumArray_rejects_empty_string : parseNumArray "" = none := by rfl

/-- The modelled parser accepts the empty array. -/
theorem parseNumArray_accepts_empty_array : parseNumArray "[]" = some [] := by
  simp [parseNumArray, skipWs, isJsonWs]

/-- The modelled parser handles signs, fractions and exponents. -/
theorem parseNumArray_accepts_scientific : parseNumArray "[-1.5e2]" = some [-150] := by
  simp [parseNumArray, parseElems, parseNumber, parseFrac, parseExp, spanDigits, skipWs,
    digitsToNat, isJsonWs]
  norm_num

/-- The modelled FTS query builder matches the repository's buildFtsQuery
tests: tokens are quoted and AND-joined. -/
theorem buildFtsQuery_quotes_and_joins :
    buildFtsQuery "hello world" = some "\"hello\" AND \"world\"" := by
  simp only [buildFtsQuery, wordTokensAux, isWordChar]
  rfl

/-- The modelled FTS query builder splits on non-word characters, per the
repository's tests. -/
theorem buildFtsQuery_splits_nonword :
    buildFtsQuery "FOO_bar baz-1" = some "\"FOO_bar\" AND \"baz\" AND \"1\"" := by
  simp only [buildFtsQuery, wordTokensAux, isWordChar]
  rfl

/-- A whitespace-only query yields no FTS query, per the repository's
tests. -/
theorem buildFtsQuery_whitespace_none : buildFtsQuery "   " = none := by
  simp [buildFtsQuery, wordTokensAux, isWordChar]

/-- Snippet truncation keeps a short string intact and cuts a long one, per
the repository's truncateUtf16Safe tests. -/
theorem truncateUtf16Safe_truncates : truncateUtf16Safe "hello world" 5 = "hello" := by
  simp [truncateUtf16Safe]

end MemorySearch
